import Mathlib

/-!
# Verification of the mallorn decision-tree engine (`src/mallorn.py`)

This file is a shallow embedding of the decision-graph engine:
the node variants and their `get_outcome` / `outgoing_edges` methods,
`DecisionTree.get_outcome` (the evaluator), `intersection`,
`DecisionTree.get_query_for_outcome` / `dfs_from_node_with_target`
(the reachability search), and `DecisionTree.serialize` / `deserialize`.

Conventions of the embedding:
* Python scalar values (strings, ints, bools) are `Scalar`; Python `==`
  (under which `True == 1`) is `pyEq`.
* Python dicts are association lists looked up front-to-back; a dict
  assignment updates the first matching key or appends a fresh one.
* Python string comparison `<` is lexicographic on code points: `lexLt`.
* The Python functions that can raise or diverge are embedded with an
  explicit error type and, for the recursive/looping ones, a fuel
  parameter (`.oof` marks fuel exhaustion, i.e. the Python code is still
  running).
* `json.dumps` followed by `json.loads` is modelled as the identity on
  the JSON value model `JValue` (it is lossless on the str/int/bool/
  list/dict values produced by `serialize`).
-/

/-- A Python scalar value: string, int, or bool. -/
inductive Scalar
  | s : String → Scalar
  | i : Int → Scalar
  | b : Bool → Scalar
deriving DecidableEq

/-- Python `bool` is a subclass of `int`: for `==` purposes `True` is `1`
and `False` is `0`. -/
def Scalar.norm : Scalar → Scalar
  | .b true => .i 1
  | .b false => .i 0
  | v => v

/-- Python `==` on scalars. -/
def pyEq (a c : Scalar) : Bool := a.norm == c.norm

/-- Node identifiers: the demo uses both ints and strings, so a `NodeId`
is any scalar. -/
abbrev NodeId := Scalar

/-- A query value: a scalar, or (for the `force` key read by
`GradualRolloutNode`) a list of ints. -/
inductive QVal
  | sc : Scalar → QVal
  | ilist : List Int → QVal
deriving DecidableEq

/-- A query: Python dict from field name to value. -/
abbrev Query := List (String × QVal)

/-- A constraint query as built by `outgoing_edges` and `intersection`:
Python dict from field name to a constraint value (a string such as
`"<56"` or a literal scalar such as `32`). -/
abbrev CQuery := List (String × Scalar)

/-- Dict lookup (first matching key). -/
def qlookup (q : Query) (k : String) : Option QVal :=
  match q with
  | [] => none
  | (k', v) :: rest => if k' = k then some v else qlookup rest k

/-- Dict lookup in a constraint query. -/
def clookup (q : CQuery) (k : String) : Option Scalar :=
  match q with
  | [] => none
  | (k', v) :: rest => if k' = k then some v else clookup rest k

/-- Dict assignment `d[k] = v` when `k` is already present: replace the
first binding, keeping its position. -/
def setK : CQuery → String → Scalar → CQuery
  | [], _, _ => []
  | (k', v') :: rest, k, v =>
    if k' = k then (k, v) :: rest else (k', v') :: setK rest k v

/-- Dict assignment in a query. -/
def qset : Query → String → QVal → Query
  | [], k, v => [(k, v)]
  | (k', v') :: rest, k, v =>
    if k' = k then (k, v) :: rest else (k', v') :: qset rest k v

/-- Python string `<`: lexicographic comparison by code point, a strict
prefix comparing less. -/
def lexLt : List Char → List Char → Bool
  | [], [] => false
  | [], _ :: _ => true
  | _ :: _, [] => false
  | a :: as, c :: cs =>
    if a.toNat < c.toNat then true
    else if c.toNat < a.toNat then false
    else lexLt as cs

/-- Embedding of the Python comparison `a < b` on strings: `strLt a b`. -/
def strLt (a c : String) : Bool := lexLt a.data c.data

/-! ## Satisfaction semantics of constraint strings

The constraint values produced by `outgoing_edges` / `intersection` are
strings (`"==v"`, `"!=v"`, `"<v"`, `">=v"`, `">v"`, `"in a, b"`,
`"any but a, b"`, plain literals such as `"windows"`, and `" and "`
conjunctions produced by `intersection`) or literal ints (`32`).  The
spec reads them as the constraints Equals / NotEquals / Interval /
InSet / NotInSet / Any; `satC` is that reading, used to state what "a
concrete query satisfies a ConstraintQuery" means. -/

/-- Split a character list on the separator `" and "` (leftmost,
non-overlapping), as Python `s.split(" and ")` does. -/
def splitAnd : List Char → List (List Char)
  | [] => [[]]
  | ' ' :: 'a' :: 'n' :: 'd' :: ' ' :: rest => [] :: splitAnd rest
  | c :: rest =>
    match splitAnd rest with
    | t :: ts => (c :: t) :: ts
    | [] => [[c]]

/-- Split a character list on the separator `", "`, as Python
`s.split(", ")` does. -/
def splitCS : List Char → List (List Char)
  | [] => [[]]
  | ',' :: ' ' :: rest => [] :: splitCS rest
  | c :: rest =>
    match splitCS rest with
    | t :: ts => (c :: t) :: ts
    | [] => [[c]]

/-- Join with `", "`, as Python `", ".join(...)` does. -/
def joinCS : List (List Char) → List Char
  | [] => []
  | [t] => t
  | t :: rest => t ++ ',' :: ' ' :: joinCS rest

/-- Satisfaction of one constraint atom (no `" and "` inside) by a
scalar query value. -/
def satAtom (c : List Char) (v : Scalar) : Bool :=
  match c with
  | '=' :: '=' :: rest => pyEq v (.s (String.mk rest))
  | '!' :: '=' :: rest => !pyEq v (.s (String.mk rest))
  | '>' :: '=' :: rest =>
    match v with
    | .s w => !lexLt w.data rest
    | _ => false
  | '<' :: rest =>
    match v with
    | .s w => lexLt w.data rest
    | _ => false
  | '>' :: rest =>
    match v with
    | .s w => lexLt rest w.data
    | _ => false
  | 'i' :: 'n' :: ' ' :: rest =>
    match v with
    | .s w => (splitCS rest).contains w.data
    | _ => false
  | 'a' :: 'n' :: 'y' :: ' ' :: 'b' :: 'u' :: 't' :: ' ' :: rest =>
    match v with
    | .s w => !(splitCS rest).contains w.data
    | _ => true
  | other => pyEq v (.s (String.mk other))

/-- Satisfaction of one constraint value: string constraints are read as
conjunctions of atoms split on `" and "`; int/bool constraints mean
literal equality. -/
def satC (c : Scalar) (v : Scalar) : Bool :=
  match c with
  | .s cs => (splitAnd cs.data).all (fun a => satAtom a v)
  | other => pyEq v other

/-- One field of a query satisfies one constraint: the field is
present, scalar-valued, and its value passes `satC`. -/
def entrySat (q : Query) (k : String) (c : Scalar) : Bool :=
  match qlookup q k with
  | some (.sc v) => satC c v
  | _ => false

/-- A concrete query satisfies a ConstraintQuery when every constrained
field is present, scalar-valued, and satisfies its constraint. -/
def satQ (cq : CQuery) (q : Query) : Bool :=
  cq.all fun kc => entrySat q kc.1 kc.2

/-! ## The node model -/

/-- The decision-node variants of `mallorn.py` (each constructor embeds
one `DecisionNode` subclass and its constructor parameters; `locales`
models the Python set by the list of its elements in iteration order). -/
inductive DNode
  | outcome (value : Scalar)
  | versionCutoff (cutoff : String) (less_node greater_or_equal_node : NodeId)
  | versionExact (matchv : String) (success_node failure_node : NodeId)
  | operatingSystem (windows_node linux_node macos_node : NodeId)
  | product (productv : String) (success_node failure_node : NodeId)
  | cpuArchitecture (node_32bit node_64bit : NodeId)
  | osArchitecture (node_32bit node_64bit : NodeId)
  | localeMatcher (locales : List String) (success_node failure_node : NodeId)
  | arbitraryMatcher (key : String) (value : Scalar) (success_node failure_node : NodeId)
  | gradualRollout (rollout_pct : Int) (inside_node outside_node : NodeId)
deriving DecidableEq

/-- The whole tree: Python dict from node id to node. -/
abbrev TreeN := List (NodeId × DNode)

/-- Dict lookup in the node table, with Python `==` key matching. -/
def lookupN (g : TreeN) (i : NodeId) : Option DNode :=
  match g with
  | [] => none
  | (k, n) :: rest => if pyEq k i then some n else lookupN rest i

/-- The `outgoing_edges` method of each node variant: the list of
(constraint-dict, target) pairs exactly as the Python methods build
them (`OutcomeNode` inherits the base class's empty list). -/
def outgoingEdges : DNode → List (CQuery × NodeId)
  | .outcome _ => []
  | .versionCutoff c l r =>
    [([("version", .s (String.mk ('<' :: c.data)))], l),
     ([("version", .s (String.mk ('>' :: '=' :: c.data)))], r)]
  | .versionExact m sn fn =>
    [([("version", .s (String.mk ('=' :: '=' :: m.data)))], sn),
     ([("version", .s (String.mk ('!' :: '=' :: m.data)))], fn)]
  | .operatingSystem w l m =>
    [([("os", .s "windows")], w), ([("os", .s "linux")], l),
     ([("os", .s "macos")], m)]
  | .product p sn fn =>
    [([("product", .s (String.mk ('=' :: '=' :: p.data)))], sn),
     ([("product", .s (String.mk ('!' :: '=' :: p.data)))], fn)]
  | .cpuArchitecture a c => [([("cpuarch", .i 32)], a), ([("cpuarch", .i 64)], c)]
  | .osArchitecture a c => [([("osarch", .i 32)], a), ([("osarch", .i 64)], c)]
  | .localeMatcher ls sn fn =>
    [([("locale", .s (String.mk ('i' :: 'n' :: ' ' :: joinCS (ls.map String.data))))], sn),
     ([("locale", .s (String.mk
        ('a' :: 'n' :: 'y' :: ' ' :: 'b' :: 'u' :: 't' :: ' ' :: joinCS (ls.map String.data))))], fn)]
  | .arbitraryMatcher k v sn fn =>
    [([(k, .s (String.mk ('=' :: '=' :: (scalarStr v).data)))], sn),
     ([(k, .s (String.mk ('!' :: '=' :: (scalarStr v).data)))], fn)]
  | .gradualRollout _ inn out => [([], inn), ([], out)]
where
  /-- Python `"{}".format(v)` on a scalar. -/
  scalarStr : Scalar → String
    | .s s => s
    | .i n => toString n
    | .b true => "True"
    | .b false => "False"

/-! ## The evaluator -/

/-- Runtime errors of the embedded Python code. -/
inductive EvalErr
  | keyField (f : String)    -- `query[f]` with `f` missing: `KeyError(f)`
  | keyNode (i : NodeId)     -- `self.nodes[i]` with `i` missing: `KeyError(i)`
  | typeErr                  -- e.g. comparing a non-string version with `<`
  | nameErr                  -- `random` is used but never imported: `NameError`
  | indexErr                 -- `force.pop(0)` on an empty list: `IndexError`
deriving DecidableEq

/-- The result of one node's `get_outcome`. -/
inductive StepRes
  | outcome (v : Scalar)
  | next (i : NodeId)
deriving DecidableEq

/-- The `get_outcome` method of a single node.  Returns the (possibly mutated)
query: only `GradualRolloutNode` mutates it, popping the head of
`query['force']`. -/
def stepN : DNode → Query → Except EvalErr (StepRes × Query)
  | .outcome v, q => .ok (.outcome v, q)
  | .versionCutoff c l r, q =>
    match qlookup q "version" with
    | none => .error (.keyField "version")
    | some (.sc (.s w)) => .ok (.next (if strLt w c then l else r), q)
    | some _ => .error .typeErr
  | .versionExact m sn fn, q =>
    match qlookup q "version" with
    | none => .error (.keyField "version")
    | some (.sc v) => .ok (.next (if pyEq v (.s m) then sn else fn), q)
    | some _ => .ok (.next fn, q)
  | .operatingSystem w l m, q =>
    match qlookup q "os" with
    | none => .error (.keyField "os")
    | some (.sc v) =>
      .ok (.next (if pyEq v (.s "windows") then w
                  else if pyEq v (.s "linux") then l else m), q)
    | some _ => .ok (.next m, q)
  | .product p sn fn, q =>
    match qlookup q "product" with
    | none => .error (.keyField "product")
    | some (.sc v) => .ok (.next (if pyEq v (.s p) then sn else fn), q)
    | some _ => .ok (.next fn, q)
  | .cpuArchitecture a c, q =>
    match qlookup q "cpuarch" with
    | none => .error (.keyField "cpuarch")
    | some (.sc v) => .ok (.next (if pyEq v (.i 32) then a else c), q)
    | some _ => .ok (.next c, q)
  | .osArchitecture a c, q =>
    match qlookup q "osarch" with
    | none => .error (.keyField "osarch")
    | some (.sc v) => .ok (.next (if pyEq v (.i 32) then a else c), q)
    | some _ => .ok (.next c, q)
  | .localeMatcher ls sn fn, q =>
    match qlookup q "locale" with
    | none => .error (.keyField "locale")
    | some (.sc v) =>
      .ok (.next (if ls.any (fun w => pyEq v (.s w)) then sn else fn), q)
    | some (.ilist _) => .error .typeErr   -- unhashable list in a set test
  | .arbitraryMatcher k v sn fn, q =>
    match qlookup q k with
    | none => .error (.keyField k)
    | some (.sc w) => .ok (.next (if pyEq w v then sn else fn), q)
    | some _ => .ok (.next fn, q)
  | .gradualRollout pct inn out, q =>
    match qlookup q "force" with
    | some (.ilist (n :: rest)) =>
      .ok (.next (if n < pct then inn else out), qset q "force" (.ilist rest))
    | some (.ilist []) => .error .indexErr
    | some (.sc _) => .error .typeErr     -- `.pop` on a non-list
    | none => .error .nameErr             -- `random` was never imported

/-- Result of `DecisionTree.get_outcome`. -/
inductive EvalRes
  | oof                                -- out of fuel: the loop is still running
  | err (e : EvalErr)
  | ok (v : Scalar) (q : Query)        -- outcome value and final query state
deriving DecidableEq

/-- The traversal loop of `DecisionTree.get_outcome`, from node `i`,
with fuel bounding the number of iterations. -/
def evalFrom (g : TreeN) : Nat → NodeId → Query → EvalRes
  | 0, _, _ => .oof
  | fuel + 1, i, q =>
    match lookupN g i with
    | none => .err (.keyNode i)
    | some nd =>
      match stepN nd q with
      | .error e => .err e
      | .ok (.outcome v, q') => .ok v q'
      | .ok (.next j, q') => evalFrom g fuel j q'

/-- Embedding of `DecisionTree.get_outcome`: start at node id `0`. -/
def evalT (g : TreeN) (q : Query) (fuel : Nat) : EvalRes :=
  evalFrom g fuel (.i 0) q

/-- The traversal state after `k` continue-steps from node `i`
(`none` when the traversal halted or failed earlier). -/
def walk (g : TreeN) : Nat → NodeId → Query → Option (NodeId × Query)
  | 0, i, q => some (i, q)
  | k + 1, i, q =>
    match lookupN g i with
    | none => none
    | some nd =>
      match stepN nd q with
      | .ok (.next j, q') => walk g k j q'
      | _ => none

/-! ## `intersection` of two constraint queries

The Python function starts from a copy of `query2` and folds in the
entries of `query1`; agreeing values are kept, a fresh key is inserted,
and disagreeing values are resolved only by the hard-coded
version-literal table, otherwise the whole intersection is `None`. -/

/-- The hard-coded pairs in the `k == 'version'` branch of
`intersection`: `hackTable v w` is the value stored when the incoming
value is `v` and the accumulated value is `w`. -/
def hackTable (v w : Scalar) : Option Scalar :=
  match v, w with
  | .s "==55.0.3", .s "<56" => some (.s "==55.0.3")
  | .s "!=55.0.3", .s "<56" => some (.s "<56 and !=55.0.3")
  | .s "==54.0.1", .s "<56 and !=55.0.3" => some (.s "==54.0.1")
  | .s "!=54.0.1", .s "<56 and !=55.0.3" => some (.s "<56 and !=55.0.3 and !=54.0.1")
  | .s "==56.0", .s ">=56" => some (.s "==56.0")
  | .s "!=56.0", .s ">=56" => some (.s ">56.0")
  | _, _ => none

/-- One iteration of the `for k, v in query1.items()` loop of
`intersection`, acting on the accumulator `ret`. -/
def interStep (ret : CQuery) (kv : String × Scalar) : Option CQuery :=
  match clookup ret kv.1 with
  | none => some (ret ++ [kv])
  | some w =>
    if pyEq w kv.2 then some ret
    else if kv.1 = "version" then (hackTable kv.2 w).map (setK ret kv.1)
    else none

/-- The loop of `intersection`, folding `query1`'s items into the
accumulator; `none` is the early `return None`. -/
def interFold (ret : CQuery) : List (String × Scalar) → Option CQuery
  | [] => some ret
  | kv :: rest =>
    match interStep ret kv with
    | none => none
    | some r => interFold r rest

/-- Embedding of `intersection(query1, query2)` of `mallorn.py`. -/
def intersection (q1 q2 : CQuery) : Option CQuery := interFold q2 q1

/-! ## The reachability search (`get_query_for_outcome`) -/

/-- Result of the fuelled DFS. -/
inductive DfsRes
  | oof                          -- out of fuel: the recursion is still running
  | err (e : EvalErr)
  | ok (qs : List CQuery)        -- the queries appended to `success_paths`
deriving DecidableEq

/-- The `for (query, next_node) in node.outgoing_edges()` loop of
`dfs_from_node_with_target`; `rec` is the recursive call (note the
source passes `current_path`, not the freshly built `new_path`, to it,
so the path argument of `rec` is fixed outside this loop). -/
def dfsGo (target : NodeId) (path : List NodeId)
    (rec : NodeId → CQuery → DfsRes) (cq : CQuery) :
    List (CQuery × NodeId) → DfsRes
  | [] => .ok []
  | (ec, nxt) :: rest =>
    if path.any (fun p => pyEq p nxt) then
      -- We've already visited it
      dfsGo target path rec cq rest
    else
      match intersection ec cq with
      | none =>
        -- "Impossible to merge": prune this edge
        dfsGo target path rec cq rest
      | some ncq =>
        if ncq.isEmpty then
          -- `if not new_query` is also true for the empty dict {}
          dfsGo target path rec cq rest
        else if pyEq nxt target then
          match dfsGo target path rec cq rest with
          | .ok qs => .ok (ncq :: qs)
          | e => e
        else
          match rec nxt ncq with
          | .ok qs =>
            match dfsGo target path rec cq rest with
            | .ok qs' => .ok (qs ++ qs')
            | e => e
          | e => e

/-- Embedding of `dfs_from_node_with_target`, with fuel bounding recursion depth.
The recursive call receives `path` unchanged, exactly as in the source
(where `new_path = current_path + [current_id]` is computed but
`current_path` is what is passed). -/
def dfsT (g : TreeN) (target : NodeId) :
    Nat → NodeId → List NodeId → CQuery → DfsRes
  | 0, _, _, _ => .oof
  | fuel + 1, cur, path, cq =>
    match lookupN g cur with
    | none => .err (.keyNode cur)
    | some nd =>
      dfsGo target path (fun nxt ncq => dfsT g target fuel nxt path ncq) cq
        (outgoingEdges nd)

/-- Embedding of `DecisionTree.get_query_for_outcome`: DFS from node `0` with
`seen = [0]` and an empty accumulated query. -/
def getQueryForOutcomeFuel (g : TreeN) (target : NodeId) (fuel : Nat) : DfsRes :=
  dfsT g target fuel (.i 0) [.i 0] []

/-! ## Serialization -/

/-- The JSON value model (what `json.dumps` writes and `json.loads`
returns for the payloads built by the `serialize` methods). -/
inductive JValue
  | jb : Bool → JValue
  | ji : Int → JValue
  | js : String → JValue
  | arr : List JValue → JValue
  | obj : List (String × JValue) → JValue

/-- A scalar (including a node id) as a JSON value. -/
def scalarToJ : Scalar → JValue
  | .s s => .js s
  | .i n => .ji n
  | .b b => .jb b

/-- Read back a scalar from a JSON value. -/
def jToScalar : JValue → Option Scalar
  | .js s => some (.s s)
  | .ji n => some (.i n)
  | .jb b => some (.b b)
  | _ => none

/-- Subscript `json[key]` on a JSON object (KeyError modelled as `none`). -/
def jLookup (fs : List (String × JValue)) (k : String) : Option JValue :=
  match fs with
  | [] => none
  | (k', v) :: rest => if k' = k then some v else jLookup rest k

/-- The Python class name of a node, as used by `serialize`. -/
def tagOf : DNode → String
  | .outcome _ => "OutcomeNode"
  | .versionCutoff .. => "VersionCutoffNode"
  | .versionExact .. => "VersionExactNode"
  | .operatingSystem .. => "OperatingSystemNode"
  | .product .. => "ProductNode"
  | .cpuArchitecture .. => "CPUArchitectureNode"
  | .osArchitecture .. => "OSArchitectureNode"
  | .localeMatcher .. => "LocaleMatcherNode"
  | .arbitraryMatcher .. => "ArbitraryMatcherNode"
  | .gradualRollout .. => "GradualRolloutNode"

/-- The `serialize` payload of each node variant. -/
def payloadOf : DNode → JValue
  | .outcome v => .obj [("value", scalarToJ v)]
  | .versionCutoff c l r =>
    .obj [("cutoff", .js c), ("lt", scalarToJ l), ("gte", scalarToJ r)]
  | .versionExact m sn fn =>
    .obj [("match", .js m), ("success", scalarToJ sn), ("failure", scalarToJ fn)]
  | .operatingSystem w l m =>
    .obj [("windows", scalarToJ w), ("linux", scalarToJ l), ("macos", scalarToJ m)]
  | .product p sn fn =>
    .obj [("product", .js p), ("success", scalarToJ sn), ("failure", scalarToJ fn)]
  | .cpuArchitecture a c =>
    .obj [("node_32bit", scalarToJ a), ("node_64bit", scalarToJ c)]
  | .osArchitecture a c =>
    .obj [("node_32bit", scalarToJ a), ("node_64bit", scalarToJ c)]
  | .localeMatcher ls sn fn =>
    .obj [("locales", .arr (ls.map .js)), ("success", scalarToJ sn),
          ("failure", scalarToJ fn)]
  | .arbitraryMatcher k v sn fn =>
    .obj [("key", .js k), ("value", scalarToJ v), ("success", scalarToJ sn),
          ("failure", scalarToJ fn)]
  | .gradualRollout pct inn out =>
    .obj [("rollout_pct", .ji pct), ("inside", scalarToJ inn),
          ("outside", scalarToJ out)]

/-- Embedding of `DecisionTree.serialize`: the list of `(node_id, type name, payload)`
triples in dict iteration order. -/
def serializeT (g : TreeN) : List (NodeId × String × JValue) :=
  g.map fun p => (p.1, tagOf p.2, payloadOf p.2)

/-- Errors raised while deserializing. -/
inductive DeserErr
  | keyError (tag : String)   -- `globals()[typename]` with an unknown name
  | jsonKeyError (k : String) -- a payload key the deserializer reads is missing
  | shapeError                -- a payload field does not fit the parameter's type
  | unmodelled (tag : String) -- tag names some other module global; the call
                              -- fails (or misbehaves) in ways no claim needs
deriving DecidableEq

/-- The names bound at module level in `mallorn.py` other than the ten
concrete node classes and `DecisionNode` (looking one of these up with
`globals()[typename]` succeeds; the subsequent `.deserialize` call then
fails or misbehaves in a class-specific way). -/
def otherGlobals : List String :=
  ["json", "subprocess", "DecisionTree", "intersection", "subtract_querysets",
   "Outcome", "Continue", "label_with_id", "graphviz_vertex_with_id",
   "safe_node_id", "edge", "try_render_graphviz", "format_query", "main"]

/-- Read a string payload field. -/
def jStr (fs : List (String × JValue)) (k : String) : Except DeserErr String :=
  match jLookup fs k with
  | none => .error (.jsonKeyError k)
  | some (.js s) => .ok s
  | some _ => .error .shapeError

/-- Read a scalar (e.g. node-id) payload field. -/
def jSc (fs : List (String × JValue)) (k : String) : Except DeserErr Scalar :=
  match jLookup fs k with
  | none => .error (.jsonKeyError k)
  | some v =>
    match jToScalar v with
    | some s => .ok s
    | none => .error .shapeError

/-- Read an int payload field. -/
def jInt (fs : List (String × JValue)) (k : String) : Except DeserErr Int :=
  match jLookup fs k with
  | none => .error (.jsonKeyError k)
  | some (.ji n) => .ok n
  | some _ => .error .shapeError

/-- Read back a list of strings from a JSON array. -/
def strListOf : List JValue → Except DeserErr (List String)
  | [] => .ok []
  | .js s :: rest =>
    match strListOf rest with
    | .ok ss => .ok (s :: ss)
    | .error e => .error e
  | _ :: _ => .error .shapeError

/-- Read a list-of-strings payload field. -/
def jStrList (fs : List (String × JValue)) (k : String) : Except DeserErr (List String) :=
  match jLookup fs k with
  | none => .error (.jsonKeyError k)
  | some (.arr xs) => strListOf xs
  | some _ => .error .shapeError

/-- Embedding of `globals()[typename].deserialize(payload)` for one triple.
`ok (some n)` is a reconstructed node; `ok none` is the Python value
`None`, which is what the abstract base class `DecisionNode.deserialize`
(whose body is `pass`) returns when `typename = "DecisionNode"`. -/
def nodeDeserialize (tag : String) (payload : JValue) :
    Except DeserErr (Option DNode) :=
  if tag = "DecisionNode" then .ok none
  else if otherGlobals.contains tag then .error (.unmodelled tag)
  else
    match payload with
    | .obj fs =>
      if tag = "OutcomeNode" then do
        let v ← jSc fs "value"; .ok (some (.outcome v))
      else if tag = "VersionCutoffNode" then do
        let c ← jStr fs "cutoff"; let l ← jSc fs "lt"; let r ← jSc fs "gte"
        .ok (some (.versionCutoff c l r))
      else if tag = "VersionExactNode" then do
        let m ← jStr fs "match"; let s ← jSc fs "success"; let f ← jSc fs "failure"
        .ok (some (.versionExact m s f))
      else if tag = "OperatingSystemNode" then do
        let w ← jSc fs "windows"; let l ← jSc fs "linux"; let m ← jSc fs "macos"
        .ok (some (.operatingSystem w l m))
      else if tag = "ProductNode" then do
        let p ← jStr fs "product"; let s ← jSc fs "success"; let f ← jSc fs "failure"
        .ok (some (.product p s f))
      else if tag = "CPUArchitectureNode" then do
        let a ← jSc fs "node_32bit"; let c ← jSc fs "node_64bit"
        .ok (some (.cpuArchitecture a c))
      else if tag = "OSArchitectureNode" then do
        let a ← jSc fs "node_32bit"; let c ← jSc fs "node_64bit"
        .ok (some (.osArchitecture a c))
      else if tag = "LocaleMatcherNode" then do
        let ls ← jStrList fs "locales"; let s ← jSc fs "success"; let f ← jSc fs "failure"
        .ok (some (.localeMatcher ls s f))
      else if tag = "ArbitraryMatcherNode" then do
        let k ← jStr fs "key"; let v ← jSc fs "value"
        let s ← jSc fs "success"; let f ← jSc fs "failure"
        .ok (some (.arbitraryMatcher k v s f))
      else if tag = "GradualRolloutNode" then do
        let pct ← jInt fs "rollout_pct"; let i ← jSc fs "inside"; let o ← jSc fs "outside"
        .ok (some (.gradualRollout pct i o))
      else .error (.keyError tag)
    | _ =>
      if (["OutcomeNode", "VersionCutoffNode", "VersionExactNode",
           "OperatingSystemNode", "ProductNode", "CPUArchitectureNode",
           "OSArchitectureNode", "LocaleMatcherNode", "ArbitraryMatcherNode",
           "GradualRolloutNode"] : List String).contains tag
      then .error .shapeError
      else .error (.keyError tag)

/-- Dict assignment into the rebuilt node table (the values are
`Option DNode` because tag `"DecisionNode"` stores Python `None`). -/
def insertD (d : List (NodeId × Option DNode)) (k : NodeId) (v : Option DNode) :
    List (NodeId × Option DNode) :=
  match d with
  | [] => [(k, v)]
  | (k', v') :: rest =>
    if pyEq k' k then (k, v) :: rest else (k', v') :: insertD rest k v

/-- The loop of `DecisionTree.deserialize`, building the node dict
front to back. -/
def deserAux (acc : List (NodeId × Option DNode)) :
    List (NodeId × String × JValue) → Except DeserErr (List (NodeId × Option DNode))
  | [] => .ok acc
  | (i, tag, p) :: rest =>
    match nodeDeserialize tag p with
    | .error e => .error e
    | .ok n => deserAux (insertD acc i n) rest

/-- Embedding of `DecisionTree.deserialize`. -/
def deserializeT (state : List (NodeId × String × JValue)) :
    Except DeserErr (List (NodeId × Option DNode)) :=
  deserAux [] state

/-! ## Benign graphs

The reachability analysis communicates through *strings* such as
`"<56"`; reading such a string back as a constraint is only faithful
when the embedded literals do not collide with the encoding itself
(no `" and "` inside a literal, the locale list recoverable from its
`", "`-join) and when `ArbitraryMatcherNode` carries a string value
(the encoding `"=={}".format(v)` erases the int/str distinction that
`get_outcome`'s `==` still observes).  `benignN` checks these
conditions, and excludes the query-independent `GradualRolloutNode`. -/

/-- The string (as a char list) contains no `" and "` separator, so the
constraint reader treats it as a single atom. -/
def noAnd (s : List Char) : Bool := splitAnd s == [s]

/-- Benignity of one node (see section comment). -/
def benignN : DNode → Bool
  | .outcome _ => true
  | .versionCutoff c _ _ =>
    noAnd ('<' :: c.data) && noAnd ('>' :: '=' :: c.data)
  | .versionExact m _ _ =>
    noAnd ('=' :: '=' :: m.data) && noAnd ('!' :: '=' :: m.data)
  | .operatingSystem _ _ _ => true
  | .product p _ _ =>
    noAnd ('=' :: '=' :: p.data) && noAnd ('!' :: '=' :: p.data)
  | .cpuArchitecture _ _ => true
  | .osArchitecture _ _ => true
  | .localeMatcher ls _ _ =>
    (splitCS (joinCS (ls.map String.data)) == ls.map String.data)
      && noAnd ('i' :: 'n' :: ' ' :: joinCS (ls.map String.data))
      && noAnd ('a' :: 'n' :: 'y' :: ' ' :: 'b' :: 'u' :: 't' :: ' '
                  :: joinCS (ls.map String.data))
  | .arbitraryMatcher _ v _ _ =>
    match v with
    | .s x => noAnd ('=' :: '=' :: x.data) && noAnd ('!' :: '=' :: x.data)
    | _ => false
  | .gradualRollout _ _ _ => false

/-- Benignity of a whole tree. -/
def benignT (g : TreeN) : Bool := g.all fun p => benignN p.2

/-- All node ids of the dict are distinct (under Python `==`). -/
def distinctKeys : TreeN → Bool
  | [] => true
  | (i, _) :: rest => !(rest.any fun p => pyEq p.1 i) && distinctKeys rest

/-- Evaluation started at node `i` terminates with outcome `v`. -/
def Reaches (g : TreeN) (q : Query) (i : NodeId) (v : Scalar) : Prop :=
  ∃ fuel q', evalFrom g fuel i q = .ok v q'

/-! ## Concrete graphs used by the claims -/

/-- Concrete scenario 3 of the spec: `ArbitraryMatcherNode` on key
`"JAWS"` value `"1"`, success to the `"incompatible"` terminal, failure
to the `"ok"` terminal. -/
def jawsG : TreeN :=
  [(.i 0, .arbitraryMatcher "JAWS" (.s "1") (.i 1) (.i 2)),
   (.i 1, .outcome (.s "incompatible")),
   (.i 2, .outcome (.s "ok"))]

/-- Concrete scenario 2 of the spec: `VersionCutoffNode` with cutoff
`"56"`, less-edge to `"old"`, other edge to `"new"`. -/
def cutG : TreeN :=
  [(.i 0, .versionCutoff "56" (.i 1) (.i 2)),
   (.i 1, .outcome (.s "old")),
   (.i 2, .outcome (.s "new"))]

/-- A graph with a directed cycle between nodes 1 and 2 whose edge
constraints are mutually consistent (`cpuarch == 32` both ways). -/
def cycG : TreeN :=
  [(.i 0, .cpuArchitecture (.i 1) (.i 1)),
   (.i 1, .cpuArchitecture (.i 2) (.i 2)),
   (.i 2, .cpuArchitecture (.i 1) (.i 1))]

/-- A graph routing `product == "Firefox"` through a `GradualRolloutNode`
(50%) whose inside edge reaches the `"A"` terminal and outside edge the
`"B"` terminal. -/
def rollG : TreeN :=
  [(.i 0, .product "Firefox" (.i 1) (.i 4)),
   (.i 1, .gradualRollout 50 (.i 2) (.i 3)),
   (.i 2, .outcome (.s "A")),
   (.i 3, .outcome (.s "B")),
   (.i 4, .outcome (.s "other"))]

/-- A Firefox query which forces the rollout draw to 100. -/
def rollQ : Query :=
  [("product", .sc (.s "Firefox")), ("force", .ilist [100])]

/-- A graph whose root (node 0) reads `version`. -/
def g9a : TreeN :=
  [(.i 0, .versionCutoff "56" (.i 1) (.i 1)),
   (.i 1, .outcome (.s "x"))]

/-- A graph where node 1, reached from the root, reads `version`. -/
def g9b : TreeN :=
  [(.i 0, .product "Firefox" (.i 1) (.i 1)),
   (.i 1, .versionCutoff "56" (.i 2) (.i 2)),
   (.i 2, .outcome (.s "x"))]

/-- A query carrying only `product`, with no `version` field. -/
def q9 : Query := [("product", .sc (.s "Firefox"))]

/-- A graph exercising every node variant, with mixed int/string node
ids, a `LocaleMatcherNode` with an empty set, and outcome values of all
three scalar kinds. -/
def allG : TreeN :=
  [(.i 0, .product "Firefox" (.i 1) (.s "fennec")),
   (.s "fennec", .outcome (.s "Newest Fennec")),
   (.i 1, .operatingSystem (.i 9) (.i 2) (.i 2)),
   (.i 2, .versionCutoff "56" (.i 3) (.i 6)),
   (.i 3, .localeMatcher ["de", "fr"] (.i 4) (.i 5)),
   (.i 4, .outcome (.s "wnp")),
   (.i 5, .outcome (.b true)),
   (.i 6, .localeMatcher [] (.i 7) (.i 8)),
   (.i 7, .versionExact "55.0.3" (.i 4) (.i 5)),
   (.i 8, .cpuArchitecture (.i 9) (.i 10)),
   (.i 9, .osArchitecture (.i 4) (.i 5)),
   (.i 10, .arbitraryMatcher "JAWS" (.i 1) (.i 4) (.i 5)),
   (.i 11, .gradualRollout 42 (.i 4) (.i 5)),
   (.i 12, .outcome (.i (-3)))]

/-! ## Basic lemmas -/

theorem pyEq_comm (a c : Scalar) : pyEq a c = pyEq c a := by
  unfold pyEq
  rcases h : (a.norm == c.norm) with _ | _
  · have : ¬ a.norm = c.norm := by simpa using h
    have : ¬ c.norm = a.norm := fun hh => this hh.symm
    simp [beq_iff_eq, this]
  · have : a.norm = c.norm := by simpa using h
    simp [beq_iff_eq, this.symm]

theorem pyEq_trans {a c d : Scalar} (h1 : pyEq a c = true) (h2 : pyEq c d = true) :
    pyEq a d = true := by
  unfold pyEq at *
  have e1 : a.norm = c.norm := by simpa using h1
  have e2 : c.norm = d.norm := by simpa using h2
  simp [e1, e2]

theorem lookupN_congr (g : TreeN) {i j : NodeId} (h : pyEq i j = true) :
    lookupN g i = lookupN g j := by
  induction g with
  | nil => rfl
  | cons p rest ih =>
    obtain ⟨k, n⟩ := p
    unfold lookupN
    rcases hk : pyEq k i with _ | _
    · rcases hk' : pyEq k j with _ | _
      · simpa using ih
      · exfalso
        have : pyEq k i = true := pyEq_trans hk' (by rw [pyEq_comm]; exact h)
        simp [hk] at this
    · have : pyEq k j = true := pyEq_trans hk h
      simp [this]

theorem benignN_of_lookup {g : TreeN} (hb : benignT g = true) {i : NodeId}
    {nd : DNode} (h : lookupN g i = some nd) : benignN nd = true := by
  induction g with
  | nil => simp [lookupN] at h
  | cons p rest ih =>
    obtain ⟨k, n⟩ := p
    have hb' : benignN n = true ∧ benignT rest = true := by
      simpa [benignT, List.all_cons] using hb
    unfold lookupN at h
    rcases hk : pyEq k i with _ | _
    · rw [hk] at h
      simp at h
      exact ih hb'.2 h
    · rw [hk] at h
      simp at h
      exact h ▸ hb'.1

theorem clookup_mem {ret : CQuery} {k : String} {w : Scalar}
    (h : clookup ret k = some w) : (k, w) ∈ ret := by
  induction ret with
  | nil => simp [clookup] at h
  | cons p rest ih =>
    obtain ⟨k', v'⟩ := p
    unfold clookup at h
    by_cases hk : k' = k
    · simp [hk] at h
      exact hk ▸ h ▸ List.mem_cons_self _ _
    · simp [hk] at h
      exact List.mem_cons_of_mem _ (ih h)

theorem qlookup_qset (q : Query) (k : String) (v : QVal) :
    qlookup (qset q k v) k = some v := by
  induction q with
  | nil => simp [qset, qlookup]
  | cons p rest ih =>
    obtain ⟨k', v'⟩ := p
    unfold qset
    by_cases hk : k' = k
    · simp [hk, qlookup]
    · simp [hk, qlookup, ih]

/-! ## C3: commutativity of `intersection` -/

/-- C3: the claim "intersection is commutative, including agreement on
unsatisfiability" is false of the code: merging `{version: ==55.0.3}`
into `{version: <56}` succeeds through the hard-coded table, while the
swapped call hits no table entry and returns `None`. -/
theorem C3_intersection_not_commutative :
    intersection [("version", Scalar.s "==55.0.3")] [("version", Scalar.s "<56")]
        = some [("version", Scalar.s "==55.0.3")] ∧
    intersection [("version", Scalar.s "<56")] [("version", Scalar.s "==55.0.3")]
        = none := ⟨rfl, rfl⟩

/-! ## C4: `Equals(a) ∩ NotEquals(b)` -/

/-- C4: the claim that `Equals(a) ∩ NotEquals(b)` is satisfiable with
result `Equals(a)` whenever `a ≠ b` fails at `a = "55.0.3"`,
`b = "54.0.1"` on field `version`: the code has no general rule, only
the hard-coded pairs, and returns `None` (unsatisfiable) in both
argument orders. -/
theorem C4_equals_notequals_unsat :
    intersection [("version", Scalar.s "==55.0.3")] [("version", Scalar.s "!=54.0.1")]
        = none ∧
    intersection [("version", Scalar.s "!=54.0.1")] [("version", Scalar.s "==55.0.3")]
        = none ∧
    ("55.0.3" : String) ≠ "54.0.1" :=
  ⟨rfl, rfl, by decide⟩

/-! ## C8: deserialization of unknown variant tags -/

/-- C8: `deserialize` does not fail with a decoding error for every
unknown variant tag: the tag `"DecisionNode"` (the abstract base class,
not a node variant) is found by the `globals()` lookup and its
`deserialize` (whose body is `pass`) returns `None`, so the call
*succeeds*, storing `None` as node 0.  A tag absent from the module
namespace raises a plain `KeyError` from the `globals()[typename]`
subscript. -/
theorem C8_unknown_tag_not_decoding_error :
    deserializeT [(.i 0, "DecisionNode", .obj [])] = .ok [(.i 0, none)] ∧
    nodeDeserialize "NoSuchNodeClass" (.obj []) = .error (.keyError "NoSuchNodeClass") :=
  ⟨rfl, rfl⟩

/-! ## C5: the cycle guard and termination of the search -/

/-- Fuel exhaustion at every fuel on the cycle `1 → 2 → 1` of `cycG`:
the recursive call of `dfs_from_node_with_target` receives
`current_path` (forever `[0]`), not the freshly computed `new_path`, so
neither node 1 nor node 2 is ever skipped. -/
theorem dfsT_cycG_loops (f : Nat) :
    dfsT cycG (.i 5) f (.i 1) [.i 0] [("cpuarch", Scalar.i 32)] = .oof ∧
    dfsT cycG (.i 5) f (.i 2) [.i 0] [("cpuarch", Scalar.i 32)] = .oof := by
  induction f with
  | zero => exact ⟨rfl, rfl⟩
  | succ n ih =>
    have h1 := ih.1
    have h2 := ih.2
    simp only [cycG] at h1 h2
    constructor
    · simp [dfsT, dfsGo, cycG, lookupN, outgoingEdges, pyEq, Scalar.norm,
        intersection, interFold, interStep, clookup, h2]
    · simp [dfsT, dfsGo, cycG, lookupN, outgoingEdges, pyEq, Scalar.norm,
        intersection, interFold, interStep, clookup, h1]

/-- C5: the claim that edges into already-visited nodes are skipped so
that the search terminates on every finite graph is false of the code:
on `cycG` (cycle `1 ↔ 2` with consistent `cpuarch == 32` constraints)
`get_query_for_outcome` recurses forever — the fuelled search exhausts
every fuel. -/
theorem C5_search_does_not_terminate_on_cycle (fuel : Nat) :
    getQueryForOutcomeFuel cycG (.i 5) fuel = .oof := by
  cases fuel with
  | zero => rfl
  | succ n =>
    have h1 := (dfsT_cycG_loops n).1
    simp only [cycG] at h1
    unfold getQueryForOutcomeFuel
    simp [dfsT, dfsGo, cycG, lookupN, outgoingEdges, pyEq, Scalar.norm,
      intersection, interFold, interStep, clookup, h1]

/-! ## C6: concrete scenario 3 (the JAWS chain) -/

/-- C6: on the two-node chain `jawsG`, the reachability analysis for
the `"incompatible"` terminal (node 1) returns exactly one region,
`{JAWS: "==1"}`, at every sufficient fuel. -/
theorem C6_jaws_single_region (f : Nat) :
    getQueryForOutcomeFuel jawsG (.i 1) (f + 2)
      = .ok [[("JAWS", Scalar.s "==1")]] := by
  show getQueryForOutcomeFuel jawsG (.i 1) (f + 1 + 1) = _
  unfold getQueryForOutcomeFuel
  simp [dfsT, dfsGo, jawsG, lookupN, outgoingEdges, outgoingEdges.scalarStr,
    pyEq, Scalar.norm, intersection, interFold, interStep, clookup, hackTable,
    setK]

/-! ## C7: concrete scenario 2 (the version cutoff) -/

/-- C7: on `cutG` (an `OrderedCutoff` on `version` with cutoff `"56"`),
evaluation routes `"55.9"` (lexicographically below `"56"`) to `"old"`
and `"56.0"` to `"new"`, at every sufficient fuel. -/
theorem C7_version_cutoff_eval (f : Nat) :
    evalT cutG [("version", QVal.sc (.s "55.9"))] (f + 2)
        = .ok (.s "old") [("version", QVal.sc (.s "55.9"))] ∧
    evalT cutG [("version", QVal.sc (.s "56.0"))] (f + 2)
        = .ok (.s "new") [("version", QVal.sc (.s "56.0"))] := by
  have hlt : strLt "55.9" "56" = true := by decide
  have hge : strLt "56.0" "56" = false := by decide
  constructor
  · show evalFrom cutG (f + 1 + 1) (.i 0) _ = _
    simp [evalFrom, stepN, cutG, lookupN, qlookup, pyEq, Scalar.norm, hlt]
  · show evalFrom cutG (f + 1 + 1) (.i 0) _ = _
    simp [evalFrom, stepN, cutG, lookupN, qlookup, pyEq, Scalar.norm, hge]

/-! ## C10: the rollout node mutates the caller's query -/

/-- C10: `GradualRolloutNode.get_outcome` on a query whose `force` key
holds a non-empty list pops that list's head: the returned query maps
`force` to the tail, and so differs from the query passed in. -/
theorem C10_rollout_mutates_query (pct : Int) (inn out : NodeId) (q : Query)
    (n : Int) (rest : List Int)
    (h : qlookup q "force" = some (.ilist (n :: rest))) :
    stepN (.gradualRollout pct inn out) q
      = .ok (.next (if n < pct then inn else out), qset q "force" (.ilist rest)) ∧
    qset q "force" (.ilist rest) ≠ q := by
  constructor
  · simp [stepN, h]
  · intro he
    have hq := qlookup_qset q "force" (.ilist rest)
    rw [he, h] at hq
    simp at hq

/-- Witness for C10 at a concrete node and query. -/
theorem C10_witness :
    qlookup [("force", QVal.ilist [5, 7])] "force" = some (.ilist [5, 7]) ∧
    (stepN (.gradualRollout 50 (.i 1) (.i 2)) [("force", QVal.ilist [5, 7])]
       = .ok (.next (if (5 : Int) < 50 then Scalar.i 1 else Scalar.i 2),
              qset [("force", QVal.ilist [5, 7])] "force" (.ilist [7])) ∧
     qset [("force", QVal.ilist [5, 7])] "force" (.ilist [7])
       ≠ [("force", QVal.ilist [5, 7])]) :=
  ⟨rfl, C10_rollout_mutates_query 50 (.i 1) (.i 2) _ 5 [7] rfl⟩

/-! ## C9: evaluation on a query missing a required field -/

theorem evalFrom_keyfield_of_walk (g : TreeN) :
    ∀ (k : Nat) (i : NodeId) (q : Query) (j : NodeId) (q' : Query)
      (nd : DNode) (fld : String) (m : Nat),
      walk g k i q = some (j, q') → lookupN g j = some nd →
      stepN nd q' = .error (.keyField fld) →
      evalFrom g (k + m + 1) i q = .err (.keyField fld) := by
  intro k
  induction k with
  | zero =>
    intro i q j q' nd fld m hw hl hs
    simp [walk] at hw
    obtain ⟨rfl, rfl⟩ := hw
    have h0 : 0 + m + 1 = m + 1 := by omega
    rw [h0]
    simp [evalFrom, hl, hs]
  | succ kk ih =>
    intro i q j q' nd fld m hw hl hs
    rcases hl0 : lookupN g i with _ | nd0
    · simp [walk, hl0] at hw
    · simp only [walk, hl0] at hw
      rcases hs0 : stepN nd0 q with e | rq
      · rw [hs0] at hw; simp at hw
      · obtain ⟨r, q0⟩ := rq
        rw [hs0] at hw
        rcases r with v | j0
        · simp at hw
        · simp at hw
          have harith : kk + 1 + m + 1 = kk + m + 1 + 1 := by omega
          rw [harith]
          simp only [evalFrom, hl0, hs0]
          exact ih j0 q0 j q' nd fld m hw hl hs

/-- C9 (amended): if the traversal, after `k` steps from the root,
reaches a node whose `get_outcome` hits a field absent from the query,
then the whole evaluation fails with `KeyError(field)` — an error that
names the missing field but carries no node identity. -/
theorem C9_missing_field_raises_keyerror (g : TreeN) (q : Query) (k : Nat)
    (j : NodeId) (q' : Query) (nd : DNode) (fld : String) (m : Nat)
    (hw : walk g k (.i 0) q = some (j, q'))
    (hl : lookupN g j = some nd)
    (hs : stepN nd q' = .error (.keyField fld)) :
    evalT g q (k + m + 1) = .err (.keyField fld) :=
  evalFrom_keyfield_of_walk g k (.i 0) q j q' nd fld m hw hl hs

/-- Witness for C9 on `g9a` with the empty query. -/
theorem C9_witness :
    walk g9a 0 (.i 0) [] = some (.i 0, []) ∧
    lookupN g9a (.i 0) = some (.versionCutoff "56" (.i 1) (.i 1)) ∧
    stepN (.versionCutoff "56" (.i 1) (.i 1)) [] = .error (.keyField "version") ∧
    evalT g9a [] 3 = .err (.keyField "version") :=
  ⟨rfl, rfl, rfl,
   C9_missing_field_raises_keyerror g9a [] 0 (.i 0) [] _ "version" 2 rfl rfl rfl⟩

/-- C9 counterexample: in `g9a` the missing `version` field is required
at node 0, in `g9b` at node 1, yet both evaluations produce the very
same error value `KeyError("version")` — the error cannot identify the
node at which the field was required, contrary to the claim. -/
theorem C9_counterexample :
    (evalT g9a [] 3 = .err (.keyField "version") ∧
     evalT g9b q9 3 = .err (.keyField "version")) ∧
    (walk g9a 0 (.i 0) [] = some (.i 0, []) ∧
     walk g9b 1 (.i 0) q9 = some (.i 1, q9)) ∧
    ¬∃ nodeOf : EvalErr → NodeId,
        nodeOf (.keyField "version") = .i 0 ∧ nodeOf (.keyField "version") = .i 1 := by
  refine ⟨⟨rfl, rfl⟩, ⟨rfl, rfl⟩, ?_⟩
  rintro ⟨f, h1, h2⟩
  rw [h1] at h2
  exact absurd h2 (by decide)

/-! ## C1: the serialization round trip -/

theorem strListOf_js (ls : List String) :
    strListOf (ls.map JValue.js) = .ok ls := by
  induction ls with
  | nil => rfl
  | cons s rest ih => simp [strListOf, ih]

theorem jToScalar_scalarToJ (v : Scalar) : jToScalar (scalarToJ v) = some v := by
  cases v <;> rfl

/-- Each node variant's `deserialize` inverts its `serialize`. -/
theorem nodeDeserialize_roundtrip (n : DNode) :
    nodeDeserialize (tagOf n) (payloadOf n) = .ok (some n) := by
  cases n <;>
    simp [nodeDeserialize, tagOf, payloadOf, jStr, jSc, jInt, jStrList,
      jLookup, jToScalar_scalarToJ, strListOf_js, otherGlobals, bind,
      Except.bind]

theorem insertD_fresh (acc : List (NodeId × Option DNode)) (i : NodeId)
    (v : Option DNode) (h : (acc.any fun a => pyEq a.1 i) = false) :
    insertD acc i v = acc ++ [(i, v)] := by
  induction acc with
  | nil => rfl
  | cons a rest ih =>
    obtain ⟨k', v'⟩ := a
    have hh : pyEq k' i = false ∧ (rest.any fun a => pyEq a.1 i) = false := by
      simpa using h
    simp [insertD, hh.1, ih hh.2]

theorem deserAux_serialize (ns : TreeN) :
    ∀ acc, distinctKeys ns = true →
      (∀ p ∈ ns, (acc.any fun a => pyEq a.1 p.1) = false) →
      deserAux acc (serializeT ns)
        = .ok (acc ++ ns.map fun p => (p.1, some p.2)) := by
  induction ns with
  | nil => intro acc _ _; simp [serializeT, deserAux]
  | cons p rest ih =>
    obtain ⟨i, n⟩ := p
    intro acc hd hf
    have hd1 : (rest.any fun p => pyEq p.1 i) = false ∧ distinctKeys rest = true := by
      simpa [distinctKeys] using hd
    have hins : insertD acc i (some n) = acc ++ [(i, some n)] :=
      insertD_fresh _ _ _ (hf (i, n) (List.mem_cons_self _ _))
    have hstep : deserAux acc (serializeT ((i, n) :: rest))
        = deserAux (acc ++ [(i, some n)]) (serializeT rest) := by
      simp [serializeT, deserAux, nodeDeserialize_roundtrip n, hins]
    rw [hstep, ih (acc ++ [(i, some n)]) hd1.2 ?_]
    · simp
    · intro p hp
      have h1 := hf p (List.mem_cons_of_mem _ hp)
      have h2 : pyEq i p.1 = false := by
        have hx : pyEq p.1 i = false := by
          have := hd1.1
          rw [List.any_eq_false] at this
          simpa using this p hp
        rw [pyEq_comm]; exact hx
      simp [List.any_append, h1, h2]

/-- C1: for every decision graph (distinct node ids, as in a Python
dict), `deserialize (serialize g)` reconstructs exactly the same node
table: same ids in the same order, each mapped to the same variant with
the same parameters. -/
theorem C1_serialize_roundtrip (ns : TreeN) (h : distinctKeys ns = true) :
    deserializeT (serializeT ns) = .ok (ns.map fun p => (p.1, some p.2)) := by
  have := deserAux_serialize ns [] h (by intro p hp; rfl)
  simpa [deserializeT] using this

/-- Witness for C1 on `allG`, which contains every node variant
(including a `LocaleMatcherNode` with an empty set). -/
theorem C1_witness :
    distinctKeys allG = true ∧
    deserializeT (serializeT allG) = .ok (allG.map fun p => (p.1, some p.2)) :=
  ⟨by decide, C1_serialize_roundtrip allG (by decide)⟩

/-! ## C2: soundness of the reachability search (machinery) -/

theorem lexLt_irrefl : ∀ a, lexLt a a = false := by
  intro a
  induction a with
  | nil => rfl
  | cons x xs ih => simp [lexLt, ih]

theorem lexLt_trans : ∀ a b c, lexLt a b = true → lexLt b c = true →
    lexLt a c = true := by
  intro a
  induction a with
  | nil =>
    intro b c hab hbc
    cases b with
    | nil => simp [lexLt] at hab
    | cons y ys =>
      cases c with
      | nil => simp [lexLt] at hbc
      | cons z zs => rfl
  | cons x xs ih =>
    intro b c hab hbc
    cases b with
    | nil => simp [lexLt] at hab
    | cons y ys =>
      cases c with
      | nil => simp [lexLt] at hbc
      | cons z zs =>
        unfold lexLt at hab hbc ⊢
        by_cases h1 : x.toNat < y.toNat
        · by_cases h2 : y.toNat < z.toNat
          · have hx : x.toNat < z.toNat := by omega
            simp [hx]
          · by_cases h3 : z.toNat < y.toNat
            · simp [h2, h3] at hbc
            · have hx : x.toNat < z.toNat := by omega
              simp [hx]
        · by_cases h1' : y.toNat < x.toNat
          · simp [h1, h1'] at hab
          · simp [h1, h1'] at hab
            by_cases h2 : y.toNat < z.toNat
            · have hx : x.toNat < z.toNat := by omega
              simp [hx]
            · by_cases h3 : z.toNat < y.toNat
              · simp [h2, h3] at hbc
              · simp [h2, h3] at hbc
                have hx : ¬ x.toNat < z.toNat := by omega
                have hz : ¬ z.toNat < x.toNat := by omega
                simp [hx, hz]
                exact ih ys zs hab hbc

theorem pyEq_str {u : Scalar} {x : String} (h : pyEq u (.s x) = true) :
    u = .s x := by
  cases u with
  | s t => simpa [pyEq, Scalar.norm] using h
  | i n => simp [pyEq, Scalar.norm] at h
  | b bb => cases bb <;> simp [pyEq, Scalar.norm] at h

theorem String.data_inj {a c : String} (h : a.data = c.data) : a = c := by
  cases a; cases c; exact congrArg String.mk h

/-- Python-equal constraint values constrain identically. -/
theorem satC_congr {w c : Scalar} (h : pyEq w c = true) (v : Scalar) :
    satC c v = satC w v := by
  have hn : w.norm = c.norm := by simpa [pyEq] using h
  cases w with
  | s sw =>
    cases c with
    | s sc =>
      have : sw = sc := by simpa [Scalar.norm] using hn
      rw [this]
    | i ic => simp [Scalar.norm] at hn
    | b bc => cases bc <;> simp [Scalar.norm] at hn
  | i iw =>
    cases c with
    | s sc => simp [Scalar.norm] at hn
    | i ic =>
      have : iw = ic := by simpa [Scalar.norm] using hn
      rw [this]
    | b bc => simp [satC, pyEq, hn]
  | b bw =>
    cases c with
    | s sc => cases bw <;> simp [Scalar.norm] at hn
    | i ic => simp [satC, pyEq, hn]
    | b bc => simp [satC, pyEq, hn]

/-- Eliminate satisfaction of a pure `"==val"` constraint. -/
theorem sat_eqeq_elim (lit val : String) {u : Scalar}
    (hsp : splitAnd lit.data = [lit.data])
    (hform : lit.data = '=' :: '=' :: val.data)
    (h : satC (.s lit) u = true) : u = .s val := by
  simp only [satC] at h
  rw [hsp, hform] at h
  simp only [List.all_cons, List.all_nil, Bool.and_true] at h
  exact pyEq_str h

/-- Soundness of the hard-coded version table: any value satisfying the
stored intersection satisfies both inputs. -/
theorem hack_sound {v w nv : Scalar} (h : hackTable v w = some nv) :
    ∀ u, satC nv u = true → satC w u = true ∧ satC v u = true := by
  have s3 : splitAnd "<56 and !=55.0.3".data = ["<56".data, "!=55.0.3".data] := by
    decide
  have s5 : splitAnd "<56 and !=55.0.3 and !=54.0.1".data
      = ["<56".data, "!=55.0.3".data, "!=54.0.1".data] := by decide
  have s8 : splitAnd ">56.0".data = [">56.0".data] := by decide
  unfold hackTable at h
  split at h
  case _ =>   -- ==55.0.3 ∩ <56
    intro u hu
    obtain rfl : Scalar.s "==55.0.3" = nv := by simpa using h
    have := sat_eqeq_elim "==55.0.3" "55.0.3" (by decide) (by decide) hu
    subst this
    exact ⟨by decide, by decide⟩
  case _ =>   -- !=55.0.3 ∩ <56  →  <56 and !=55.0.3
    intro u hu
    obtain rfl : Scalar.s "<56 and !=55.0.3" = nv := by simpa using h
    simp only [satC, s3, List.all_cons, List.all_nil, Bool.and_true,
      Bool.and_eq_true] at hu
    obtain ⟨h1, h2⟩ := hu
    constructor
    · simp only [satC, show splitAnd "<56".data = ["<56".data] by decide,
        List.all_cons, List.all_nil, Bool.and_true]
      exact h1
    · simp only [satC, show splitAnd "!=55.0.3".data = ["!=55.0.3".data] by decide,
        List.all_cons, List.all_nil, Bool.and_true]
      exact h2
  case _ =>   -- ==54.0.1 ∩ (<56 and !=55.0.3)
    intro u hu
    obtain rfl : Scalar.s "==54.0.1" = nv := by simpa using h
    have := sat_eqeq_elim "==54.0.1" "54.0.1" (by decide) (by decide) hu
    subst this
    exact ⟨by decide, by decide⟩
  case _ =>   -- !=54.0.1 ∩ (<56 and !=55.0.3)  →  triple conjunction
    intro u hu
    obtain rfl : Scalar.s "<56 and !=55.0.3 and !=54.0.1" = nv := by simpa using h
    simp only [satC, s5, List.all_cons, List.all_nil, Bool.and_true,
      Bool.and_eq_true] at hu
    obtain ⟨h1, h2, h3⟩ := hu
    constructor
    · simp only [satC, s3, List.all_cons, List.all_nil, Bool.and_true,
        Bool.and_eq_true]
      exact ⟨h1, h2⟩
    · simp only [satC, show splitAnd "!=54.0.1".data = ["!=54.0.1".data] by decide,
        List.all_cons, List.all_nil, Bool.and_true]
      exact h3
  case _ =>   -- ==56.0 ∩ >=56
    intro u hu
    obtain rfl : Scalar.s "==56.0" = nv := by simpa using h
    have := sat_eqeq_elim "==56.0" "56.0" (by decide) (by decide) hu
    subst this
    exact ⟨by decide, by decide⟩
  case _ =>   -- !=56.0 ∩ >=56  →  >56.0
    intro u hu
    obtain rfl : Scalar.s ">56.0" = nv := by simpa using h
    simp only [satC, s8, List.all_cons, List.all_nil, Bool.and_true] at hu
    cases u with
    | i n =>
      have hf : satAtom ['>', '5', '6', '.', '0'] (Scalar.i n) = false := rfl
      rw [hf] at hu
      exact absurd hu (by simp)
    | b bb =>
      have hf : satAtom ['>', '5', '6', '.', '0'] (Scalar.b bb) = false := rfl
      rw [hf] at hu
      exact absurd hu (by simp)
    | s t =>
      have hgt : lexLt "56.0".data t.data = true := hu
      constructor
      · simp only [satC, show splitAnd ">=56".data = [">=56".data] by decide,
          List.all_cons, List.all_nil, Bool.and_true]
        show (!lexLt t.data "56".data) = true
        rcases hlt : lexLt t.data "56".data with _ | _
        · rfl
        · have := lexLt_trans _ _ _ hgt hlt
          exact absurd this (by decide)
      · simp only [satC, show splitAnd "!=56.0".data = ["!=56.0".data] by decide,
          List.all_cons, List.all_nil, Bool.and_true]
        show (!pyEq (Scalar.s t) (.s "56.0")) = true
        rcases hpe : pyEq (Scalar.s t) (.s "56.0") with _ | _
        · rfl
        · have ht : t = "56.0" := Scalar.s.inj (pyEq_str hpe)
          subst ht
          exact absurd hgt (by decide)
  case _ => simp at h

theorem satQ_nil (q : Query) : satQ [] q = true := rfl

theorem satQ_cons (k : String) (c : Scalar) (rest : CQuery) (q : Query) :
    satQ ((k, c) :: rest) q = (entrySat q k c && satQ rest q) := rfl

theorem satQ_append (a b : CQuery) (q : Query) :
    satQ (a ++ b) q = (satQ a q && satQ b q) := by
  simp [satQ, List.all_append]

/-- Replacing a looked-up value by a `hack_sound`-style stronger value
preserves satisfaction of the original table and yields the incoming
constraint's satisfaction. -/
theorem satQ_setK_sound {q : Query} {k : String} {w nv vv : Scalar}
    (himp : ∀ u, satC nv u = true → satC w u = true ∧ satC vv u = true) :
    ∀ ret : CQuery, clookup ret k = some w →
      satQ (setK ret k nv) q = true →
      satQ ret q = true ∧ entrySat q k vv = true := by
  intro ret
  induction ret with
  | nil => intro h; simp [clookup] at h
  | cons p rest ih =>
    obtain ⟨k0, w0⟩ := p
    intro hlk hs
    by_cases hk : k0 = k
    · subst hk
      have hw : w0 = w := by simpa [clookup] using hlk
      subst hw
      rw [show setK ((k0, w0) :: rest) k0 nv = (k0, nv) :: rest by simp [setK]] at hs
      rw [satQ_cons] at hs
      simp only [Bool.and_eq_true] at hs
      obtain ⟨hent, hrest⟩ := hs
      have hboth : entrySat q k0 w0 = true ∧ entrySat q k0 vv = true := by
        unfold entrySat at hent ⊢
        rcases hq : qlookup q k0 with _ | qv
        · rw [hq] at hent; simp at hent
        · rw [hq] at hent
          cases qv with
          | ilist l => simp at hent
          | sc u => exact himp u hent
      refine ⟨?_, hboth.2⟩
      rw [satQ_cons]
      simp [hboth.1, hrest]
    · rw [show setK ((k0, w0) :: rest) k nv = (k0, w0) :: setK rest k nv by
        simp [setK, hk]] at hs
      rw [satQ_cons] at hs
      simp only [Bool.and_eq_true] at hs
      have hlk' : clookup rest k = some w := by simpa [clookup, hk] using hlk
      obtain ⟨ha, hb⟩ := ih hlk' hs.2
      refine ⟨?_, hb⟩
      rw [satQ_cons]
      simp [hs.1, ha]

/-- One loop iteration of `intersection` is sound: a query satisfying
the updated accumulator satisfies the previous accumulator and the
incoming constraint. -/
theorem interStep_sound {ret : CQuery} {k : String} {v : Scalar} {r : CQuery}
    (h : interStep ret (k, v) = some r) {q : Query} (hs : satQ r q = true) :
    satQ ret q = true ∧ entrySat q k v = true := by
  unfold interStep at h
  dsimp only at h
  split at h
  · -- fresh key: r = ret ++ [(k, v)]
    simp only [Option.some.injEq] at h
    subst h
    rw [satQ_append] at hs
    simp only [Bool.and_eq_true] at hs
    refine ⟨hs.1, ?_⟩
    have h2 := hs.2
    rw [satQ_cons] at h2
    simp only [Bool.and_eq_true] at h2
    exact h2.1
  · rename_i w hlk
    by_cases hw : pyEq w v = true
    · rw [if_pos hw] at h
      simp only [Option.some.injEq] at h
      subst h
      refine ⟨hs, ?_⟩
      have hmem := clookup_mem hlk
      have hall := (List.all_eq_true.mp hs) (k, w) hmem
      unfold entrySat
      rcases hq : qlookup q k with _ | qv
      · unfold satQ at hall
        unfold entrySat at hall
        rw [hq] at hall
        simp at hall
      · unfold satQ at hall
        unfold entrySat at hall
        rw [hq] at hall
        cases qv with
        | ilist l => simp at hall
        | sc u =>
          show satC v u = true
          rw [satC_congr hw u]
          exact hall
    · rw [if_neg hw] at h
      by_cases hk : k = "version"
      · rw [if_pos hk] at h
        rcases hh : hackTable v w with _ | nv
        · rw [hh] at h; simp at h
        · rw [hh] at h
          simp at h
          subst h
          subst hk
          exact satQ_setK_sound (hack_sound hh) ret hlk hs
      · rw [if_neg hk] at h
        simp at h

/-- The fold of `intersection` is sound. -/
theorem interFold_sound {q : Query} :
    ∀ (items : List (String × Scalar)) (ret r : CQuery),
      interFold ret items = some r → satQ r q = true →
      satQ ret q = true ∧ satQ items q = true := by
  intro items
  induction items with
  | nil =>
    intro ret r h hs
    simp [interFold] at h
    subst h
    exact ⟨hs, rfl⟩
  | cons kv rest ih =>
    intro ret r h hs
    unfold interFold at h
    rcases hstep : interStep ret kv with _ | r0
    · rw [hstep] at h; simp at h
    · rw [hstep] at h
      obtain ⟨h0, hrest⟩ := ih r0 r h hs
      obtain ⟨hret, hent⟩ := interStep_sound hstep h0
      refine ⟨hret, ?_⟩
      obtain ⟨k, v⟩ := kv
      rw [satQ_cons]
      simp [hent, hrest]

/-- Soundness of `intersection` w.r.t. satisfaction: a query satisfying the
merged constraint satisfies both inputs. -/
theorem intersection_sound {a b r : CQuery} (h : intersection a b = some r)
    {q : Query} (hs : satQ r q = true) : satQ a q = true ∧ satQ b q = true := by
  obtain ⟨hb, ha⟩ := interFold_sound a b r h hs
  exact ⟨ha, hb⟩

theorem satC_noAnd {l : List Char} (h : noAnd l = true) (v : Scalar) :
    satC (.s (String.mk l)) v = satAtom l v := by
  have hs : splitAnd l = [l] := by simpa [noAnd] using h
  simp only [satC]
  rw [hs]
  simp

theorem satQ_single {k : String} {c : Scalar} {q : Query}
    (h : satQ [(k, c)] q = true) :
    ∃ u, qlookup q k = some (QVal.sc u) ∧ satC c u = true := by
  rw [satQ_cons] at h
  simp only [Bool.and_eq_true] at h
  have h1 := h.1
  unfold entrySat at h1
  rcases hq : qlookup q k with _ | qv
  · rw [hq] at h1; simp at h1
  · rw [hq] at h1
    cases qv with
    | ilist l => simp at h1
    | sc u => exact ⟨u, rfl, h1⟩

theorem pyEq_refl (u : Scalar) : pyEq u u = true := by simp [pyEq]

theorem pyEq_i_s (n : Int) (x : String) : pyEq (.i n) (.s x) = false := rfl

theorem pyEq_b_s (bb : Bool) (x : String) : pyEq (.b bb) (.s x) = false := by
  cases bb <;> rfl

/-- Satisfying a `"<cutoff"` atom forces a string value below the cutoff. -/
theorem sat_lt_atom {c : String} {u : Scalar}
    (h : satAtom ('<' :: c.data) u = true) :
    ∃ w, u = .s w ∧ lexLt w.data c.data = true := by
  cases u with
  | s w => exact ⟨w, rfl, h⟩
  | i n =>
    have hf : satAtom ('<' :: c.data) (Scalar.i n) = false := rfl
    rw [hf] at h; exact absurd h (by simp)
  | b bb =>
    have hf : satAtom ('<' :: c.data) (Scalar.b bb) = false := rfl
    rw [hf] at h; exact absurd h (by simp)

/-- Satisfying a `">=cutoff"` atom forces a string value at or above
the cutoff. -/
theorem sat_ge_atom {c : String} {u : Scalar}
    (h : satAtom ('>' :: '=' :: c.data) u = true) :
    ∃ w, u = .s w ∧ lexLt w.data c.data = false := by
  cases u with
  | s w =>
    have hb : (!lexLt w.data c.data) = true := h
    exact ⟨w, rfl, by simpa using hb⟩
  | i n =>
    have hf : satAtom ('>' :: '=' :: c.data) (Scalar.i n) = false := rfl
    rw [hf] at h; exact absurd h (by simp)
  | b bb =>
    have hf : satAtom ('>' :: '=' :: c.data) (Scalar.b bb) = false := rfl
    rw [hf] at h; exact absurd h (by simp)

/-- Satisfying an `"==m"` atom forces the exact string value. -/
theorem sat_eq_atom {m : String} {u : Scalar}
    (h : satAtom ('=' :: '=' :: m.data) u = true) : u = .s m :=
  pyEq_str h

/-- Satisfying a `"!=m"` atom means Python-inequality with the string. -/
theorem sat_ne_atom {m : String} {u : Scalar}
    (h : satAtom ('!' :: '=' :: m.data) u = true) : pyEq u (.s m) = false := by
  have hb : (!pyEq u (.s (String.mk m.data))) = true := h
  simpa using hb

/-- Determinism of edges w.r.t. satisfaction: on a benign node, a query
satisfying an out-edge's constraint is routed by `get_outcome` to
exactly that edge's target (and the query is not mutated). -/
theorem stepN_of_edge_sat {nd : DNode} (hb : benignN nd = true)
    {ec : CQuery} {nxt : NodeId} (he : (ec, nxt) ∈ outgoingEdges nd)
    {q : Query} (hs : satQ ec q = true) :
    stepN nd q = .ok (.next nxt, q) := by
  cases nd with
  | outcome v => simp [outgoingEdges] at he
  | gradualRollout pct inn out => simp [benignN] at hb
  | versionCutoff c l r =>
    simp only [benignN, Bool.and_eq_true] at hb
    simp only [outgoingEdges, List.mem_cons, List.mem_singleton,
      List.not_mem_nil, or_false, Prod.mk.injEq] at he
    rcases he with ⟨hec, hnxt⟩ | ⟨hec, hnxt⟩ <;> subst hec <;> subst hnxt
    · obtain ⟨u, hq, hsat⟩ := satQ_single hs
      rw [satC_noAnd hb.1 u] at hsat
      obtain ⟨w, rfl, hlt⟩ := sat_lt_atom hsat
      simp [stepN, hq, strLt, hlt]
    · obtain ⟨u, hq, hsat⟩ := satQ_single hs
      rw [satC_noAnd hb.2 u] at hsat
      obtain ⟨w, rfl, hge⟩ := sat_ge_atom hsat
      simp [stepN, hq, strLt, hge]
  | versionExact m sn fn =>
    simp only [benignN, Bool.and_eq_true] at hb
    simp only [outgoingEdges, List.mem_cons, List.mem_singleton,
      List.not_mem_nil, or_false, Prod.mk.injEq] at he
    rcases he with ⟨hec, hnxt⟩ | ⟨hec, hnxt⟩ <;> subst hec <;> subst hnxt
    · obtain ⟨u, hq, hsat⟩ := satQ_single hs
      rw [satC_noAnd hb.1 u] at hsat
      obtain rfl := sat_eq_atom hsat
      simp [stepN, hq, pyEq_refl]
    · obtain ⟨u, hq, hsat⟩ := satQ_single hs
      rw [satC_noAnd hb.2 u] at hsat
      have hne := sat_ne_atom hsat
      simp [stepN, hq, hne]
  | product p sn fn =>
    simp only [benignN, Bool.and_eq_true] at hb
    simp only [outgoingEdges, List.mem_cons, List.mem_singleton,
      List.not_mem_nil, or_false, Prod.mk.injEq] at he
    rcases he with ⟨hec, hnxt⟩ | ⟨hec, hnxt⟩ <;> subst hec <;> subst hnxt
    · obtain ⟨u, hq, hsat⟩ := satQ_single hs
      rw [satC_noAnd hb.1 u] at hsat
      obtain rfl := sat_eq_atom hsat
      simp [stepN, hq, pyEq_refl]
    · obtain ⟨u, hq, hsat⟩ := satQ_single hs
      rw [satC_noAnd hb.2 u] at hsat
      have hne := sat_ne_atom hsat
      simp [stepN, hq, hne]
  | arbitraryMatcher k v sn fn =>
    simp only [benignN] at hb
    rcases hv : v with x | n | bb
    · rw [hv] at hb
      simp only [Bool.and_eq_true] at hb
      subst hv
      simp only [outgoingEdges, outgoingEdges.scalarStr, List.mem_cons,
        List.mem_singleton, List.not_mem_nil, or_false, Prod.mk.injEq] at he
      rcases he with ⟨hec, hnxt⟩ | ⟨hec, hnxt⟩ <;> subst hec <;> subst hnxt
      · obtain ⟨u, hq, hsat⟩ := satQ_single hs
        rw [satC_noAnd hb.1 u] at hsat
        obtain rfl := sat_eq_atom hsat
        simp [stepN, hq, pyEq_refl]
      · obtain ⟨u, hq, hsat⟩ := satQ_single hs
        rw [satC_noAnd hb.2 u] at hsat
        have hne := sat_ne_atom hsat
        simp [stepN, hq, hne]
    · rw [hv] at hb; simp at hb
    · rw [hv] at hb; simp at hb
  | operatingSystem w l m =>
    simp only [outgoingEdges, List.mem_cons, List.mem_singleton,
      List.not_mem_nil, or_false, Prod.mk.injEq] at he
    rcases he with ⟨hec, hnxt⟩ | ⟨hec, hnxt⟩ | ⟨hec, hnxt⟩ <;>
      subst hec <;> subst hnxt <;>
      obtain ⟨u, hq, hsat⟩ := satQ_single hs
    · have hu : u = .s "windows" := by
        have hs1 : splitAnd "windows".data = ["windows".data] := by decide
        simp only [satC, hs1, List.all_cons, List.all_nil, Bool.and_true] at hsat
        exact pyEq_str hsat
      subst hu
      simp [stepN, hq, pyEq, Scalar.norm]
    · have hu : u = .s "linux" := by
        have hs1 : splitAnd "linux".data = ["linux".data] := by decide
        simp only [satC, hs1, List.all_cons, List.all_nil, Bool.and_true] at hsat
        exact pyEq_str hsat
      subst hu
      simp [stepN, hq, pyEq, Scalar.norm]
    · have hu : u = .s "macos" := by
        have hs1 : splitAnd "macos".data = ["macos".data] := by decide
        simp only [satC, hs1, List.all_cons, List.all_nil, Bool.and_true] at hsat
        exact pyEq_str hsat
      subst hu
      simp [stepN, hq, pyEq, Scalar.norm]
  | cpuArchitecture a c =>
    simp only [outgoingEdges, List.mem_cons, List.mem_singleton,
      List.not_mem_nil, or_false, Prod.mk.injEq] at he
    rcases he with ⟨hec, hnxt⟩ | ⟨hec, hnxt⟩ <;> subst hec <;> subst hnxt <;>
      obtain ⟨u, hq, hsat⟩ := satQ_single hs
    · have h32 : pyEq u (.i 32) = true := hsat
      simp [stepN, hq, h32]
    · have h64 : pyEq u (.i 64) = true := hsat
      have hno : pyEq u (.i 32) = false := by
        have hn : u.norm = Scalar.i 64 := by simpa [pyEq] using h64
        simp only [pyEq, hn]
        decide
      simp [stepN, hq, hno]
  | osArchitecture a c =>
    simp only [outgoingEdges, List.mem_cons, List.mem_singleton,
      List.not_mem_nil, or_false, Prod.mk.injEq] at he
    rcases he with ⟨hec, hnxt⟩ | ⟨hec, hnxt⟩ <;> subst hec <;> subst hnxt <;>
      obtain ⟨u, hq, hsat⟩ := satQ_single hs
    · have h32 : pyEq u (.i 32) = true := hsat
      simp [stepN, hq, h32]
    · have h64 : pyEq u (.i 64) = true := hsat
      have hno : pyEq u (.i 32) = false := by
        have hn : u.norm = Scalar.i 64 := by simpa [pyEq] using h64
        simp only [pyEq, hn]
        decide
      simp [stepN, hq, hno]
  | localeMatcher ls sn fn =>
    simp only [benignN, Bool.and_eq_true] at hb
    obtain ⟨⟨hsplit, hno1⟩, hno2⟩ := hb
    have hsplit' : splitCS (joinCS (ls.map String.data)) = ls.map String.data := by
      simpa using hsplit
    simp only [outgoingEdges, List.mem_cons, List.mem_singleton,
      List.not_mem_nil, or_false, Prod.mk.injEq] at he
    rcases he with ⟨hec, hnxt⟩ | ⟨hec, hnxt⟩ <;> subst hec <;> subst hnxt <;>
      obtain ⟨u, hq, hsat⟩ := satQ_single hs
    · rw [satC_noAnd hno1 u] at hsat
      cases u with
      | i n =>
        have hf : satAtom ('i' :: 'n' :: ' ' :: joinCS (ls.map String.data))
            (Scalar.i n) = false := rfl
        rw [hf] at hsat; exact absurd hsat (by simp)
      | b bb =>
        have hf : satAtom ('i' :: 'n' :: ' ' :: joinCS (ls.map String.data))
            (Scalar.b bb) = false := rfl
        rw [hf] at hsat; exact absurd hsat (by simp)
      | s w =>
        have hc : (splitCS (joinCS (ls.map String.data))).contains w.data = true :=
          hsat
        rw [hsplit'] at hc
        have hmem : w ∈ ls := by
          have : w.data ∈ ls.map String.data := by simpa using hc
          obtain ⟨x, hx, hex⟩ := List.mem_map.mp this
          exact (String.data_inj hex) ▸ hx
        have hany : (ls.any fun x => pyEq (.s w) (.s x)) = true :=
          List.any_eq_true.mpr ⟨w, hmem, pyEq_refl _⟩
        simp [stepN, hq, hany]
    · rw [satC_noAnd hno2 u] at hsat
      cases u with
      | s w =>
        have hc : (!(splitCS (joinCS (ls.map String.data))).contains w.data) = true :=
          hsat
        rw [hsplit'] at hc
        have hnm : w ∉ ls := by
          intro hmem
          have : w.data ∈ ls.map String.data := List.mem_map.mpr ⟨w, hmem, rfl⟩
          have hcc : (ls.map String.data).contains w.data = true := by simpa using this
          rw [hcc] at hc
          simp at hc
        have hany : (ls.any fun x => pyEq (.s w) (.s x)) = false := by
          rw [List.any_eq_false]
          intro x hx
          intro hpe
          exact hnm ((Scalar.s.inj (pyEq_str hpe)) ▸ hx)
        simp [stepN, hq, hany]
      | i n =>
        have hany : (ls.any fun x => pyEq (.i n) (.s x)) = false := by
          rw [List.any_eq_false]
          intro x hx
          simp [pyEq_i_s]
        simp [stepN, hq, hany]
      | b bb =>
        have hany : (ls.any fun x => pyEq (.b bb) (.s x)) = false := by
          rw [List.any_eq_false]
          intro x hx
          simp [pyEq_b_s]
        simp [stepN, hq, hany]

/-- Soundness of the edge loop of `dfs_from_node_with_target`. -/
theorem dfsGo_sound {g : TreeN} {t : NodeId} {v : Scalar}
    (ht : lookupN g t = some (.outcome v))
    {path : List NodeId} {rec : NodeId → CQuery → DfsRes}
    (hrec : ∀ nxt ncq out', rec nxt ncq = .ok out' →
      ∀ c ∈ out', ∀ q : Query, satQ c q = true →
        satQ ncq q = true ∧ Reaches g q nxt v)
    {nd : DNode} (hnd : benignN nd = true) {cur : NodeId}
    (hcur : lookupN g cur = some nd) {cq : CQuery} :
    ∀ edges : List (CQuery × NodeId),
      (∀ e ∈ edges, e ∈ outgoingEdges nd) →
      ∀ out, dfsGo t path rec cq edges = .ok out →
      ∀ c ∈ out, ∀ q : Query, satQ c q = true →
        satQ cq q = true ∧ Reaches g q cur v := by
  intro edges
  induction edges with
  | nil =>
    intro _ out h c hc
    simp [dfsGo] at h
    subst h
    simp at hc
  | cons e rest ih =>
    obtain ⟨ec, nxt⟩ := e
    intro hsub out h c hc q hq
    have hsub' : ∀ e ∈ rest, e ∈ outgoingEdges nd :=
      fun e he => hsub e (List.mem_cons_of_mem _ he)
    have hmem : (ec, nxt) ∈ outgoingEdges nd := hsub _ (List.mem_cons_self _ _)
    unfold dfsGo at h
    by_cases hpath : (path.any fun p => pyEq p nxt) = true
    · rw [if_pos hpath] at h
      exact ih hsub' out h c hc q hq
    · rw [if_neg hpath] at h
      rcases hint : intersection ec cq with _ | ncq
      · rw [hint] at h
        exact ih hsub' out h c hc q hq
      · rw [hint] at h
        dsimp only at h
        by_cases hemp : ncq.isEmpty = true
        · rw [if_pos hemp] at h
          exact ih hsub' out h c hc q hq
        · rw [if_neg hemp] at h
          by_cases htgt : pyEq nxt t = true
          · rw [if_pos htgt] at h
            rcases hrest : dfsGo t path rec cq rest with _ | e' | qs
            · rw [hrest] at h; simp at h
            · rw [hrest] at h; simp at h
            · rw [hrest] at h
              simp at h
              subst h
              rcases List.mem_cons.mp hc with hc1 | hc2
              · subst hc1
                obtain ⟨hec, hcq⟩ := intersection_sound hint hq
                have hstep := stepN_of_edge_sat hnd hmem hec
                refine ⟨hcq, 2, q, ?_⟩
                have houtcome : stepN (.outcome v) q = .ok (.outcome v, q) := rfl
                simp [evalFrom, hcur, hstep, lookupN_congr g htgt, ht, houtcome]
              · exact ih hsub' qs hrest c hc2 q hq
          · rw [if_neg htgt] at h
            rcases hr : rec nxt ncq with _ | e' | qs
            · rw [hr] at h; simp at h
            · rw [hr] at h; simp at h
            · rw [hr] at h
              rcases hrest : dfsGo t path rec cq rest with _ | e' | qs'
              · rw [hrest] at h; simp at h
              · rw [hrest] at h; simp at h
              · rw [hrest] at h
                simp at h
                subst h
                rcases List.mem_append.mp hc with hc1 | hc2
                · obtain ⟨hncq, hreach⟩ := hrec nxt ncq qs hr c hc1 q hq
                  obtain ⟨hec, hcq⟩ := intersection_sound hint hncq
                  have hstep := stepN_of_edge_sat hnd hmem hec
                  refine ⟨hcq, ?_⟩
                  obtain ⟨f, q', hf⟩ := hreach
                  exact ⟨f + 1, q', by simp [evalFrom, hcur, hstep, hf]⟩
                · exact ih hsub' qs' hrest c hc2 q hq

/-- Soundness of the fuelled `dfs_from_node_with_target`. -/
theorem dfsT_sound {g : TreeN} (hbT : benignT g = true) {t : NodeId} {v : Scalar}
    (ht : lookupN g t = some (.outcome v)) :
    ∀ fuel cur path cq out, dfsT g t fuel cur path cq = .ok out →
      ∀ c ∈ out, ∀ q : Query, satQ c q = true →
        satQ cq q = true ∧ Reaches g q cur v := by
  intro fuel
  induction fuel with
  | zero => intro cur path cq out h; simp [dfsT] at h
  | succ n ih =>
    intro cur path cq out h c hc q hq
    unfold dfsT at h
    rcases hcur : lookupN g cur with _ | nd
    · rw [hcur] at h; simp at h
    · rw [hcur] at h
      have hnd := benignN_of_lookup hbT hcur
      exact dfsGo_sound ht (fun nxt ncq out' hr => ih nxt path ncq out' hr) hnd hcur
        (outgoingEdges nd) (fun e he => he) out h c hc q hq

/-- C2 (amended): for a benign graph `g` (no `GradualRolloutNode`,
string-valued `ArbitraryMatcherNode`s, literals that do not collide
with the constraint-string encoding), every concrete query satisfying a
ConstraintQuery returned by `get_query_for_outcome(g, t)` is routed by
`get_outcome` to the outcome held at the target node `t`. -/
theorem C2_reachability_soundness_benign {g : TreeN} (hb : benignT g = true)
    {t : NodeId} {v : Scalar} (ht : lookupN g t = some (.outcome v))
    {fuel : Nat} {out : List CQuery}
    (hdfs : getQueryForOutcomeFuel g t fuel = .ok out)
    {c : CQuery} (hc : c ∈ out) {q : Query} (hq : satQ c q = true) :
    ∃ f q', evalT g q f = .ok v q' := by
  obtain ⟨-, f, q', hf⟩ :=
    dfsT_sound hb ht fuel (.i 0) [.i 0] [] out hdfs c hc q hq
  exact ⟨f, q', hf⟩

/-- Witness for the amended C2 on the benign graph `jawsG`. -/
theorem C2_witness :
    benignT jawsG = true ∧
    lookupN jawsG (.i 1) = some (.outcome (.s "incompatible")) ∧
    getQueryForOutcomeFuel jawsG (.i 1) 4 = .ok [[("JAWS", Scalar.s "==1")]] ∧
    [("JAWS", Scalar.s "==1")] ∈ [[("JAWS", Scalar.s "==1")]] ∧
    satQ [("JAWS", Scalar.s "==1")] [("JAWS", QVal.sc (.s "1"))] = true ∧
    ∃ f q', evalT jawsG [("JAWS", QVal.sc (.s "1"))] f
      = .ok (.s "incompatible") q' :=
  ⟨by decide, rfl, by decide, by decide, by decide,
   @C2_reachability_soundness_benign jawsG (by decide) (.i 1) (.s "incompatible")
     (by decide) 4 [[("JAWS", Scalar.s "==1")]] (by decide)
     [("JAWS", Scalar.s "==1")] (by decide) [("JAWS", QVal.sc (.s "1"))]
     (by decide)⟩

/-- C2 counterexample: on `rollG` (a `GradualRolloutNode` behind a
product check) the reachability analysis for the `"A"` terminal returns
the single region `{product: "==Firefox"}` — the rollout's edges are
unconstrained; the concrete query `{product: "Firefox", force: [100]}`
satisfies that region, yet evaluation routes it to `"B"`, not `"A"`. -/
theorem C2_counterexample :
    getQueryForOutcomeFuel rollG (.i 2) 5
      = .ok [[("product", Scalar.s "==Firefox")]] ∧
    lookupN rollG (.i 2) = some (.outcome (.s "A")) ∧
    satQ [("product", Scalar.s "==Firefox")] rollQ = true ∧
    evalT rollG rollQ 5
      = .ok (.s "B") [("product", QVal.sc (.s "Firefox")), ("force", QVal.ilist [])] ∧
    Scalar.s "B" ≠ Scalar.s "A" :=
  ⟨by decide, rfl, by decide, by decide, by decide⟩
